import Mathlib

/-!
Verification of the boids simulation core (`src/boid.rs`, `src/constants.rs`,
`src/main.rs`).

The simulation's `f32` arithmetic is embedded exactly over the rationals `ℚ`:
every vector operation appearing in the verified claims (addition, subtraction,
scaling, squared distances, averages, remainders) is an exact rational
computation, so `ℚ` is a faithful model of the algorithms' intended real
semantics.  The one routine whose result is genuinely irrational — the
minimum-speed rescale in `Boid::add_dir`, which divides by a Euclidean length —
is embedded over the reals in the `RealVel` namespace.  The `f32` comparison
semantics used for hash-map keys (`impl PartialEq for Boid`) is modelled
separately at the bit-pattern level in the `F32` namespace, since IEEE-754
equality (NaN, signed zeros) is exactly what that claim is about.  Machine
casts (`f32 as usize`) are modelled with their saturating semantics.
-/

/-- `glam::Vec2`, embedded as a pair `(x, y)` of exact rationals. -/
abbrev Vec2 : Type := ℚ × ℚ

/-- Scalar multiplication `factor * v` on `glam` vectors. -/
def vscale (a : ℚ) (v : Vec2) : Vec2 := (a * v.1, a * v.2)

/-- `glam::Vec2::distance_squared`. -/
def distance_squared (a b : Vec2) : ℚ := (a.1 - b.1) ^ 2 + (a.2 - b.2) ^ 2

/-! ### Constants from `src/constants.rs`

The factors are embedded at the decimal values written in the source; the
claims only use them symbolically. -/

def SCREEN_WIDTH : ℚ := 1400

def SCREEN_HEIGHT : ℚ := 1000

def SEPARATION_FACTOR : ℚ := 1 / 10

def ALIGNMENT_FACTOR : ℚ := 5 / 100

def COHESION_FACTOR : ℚ := 5 / 1000

def LEADER_FACTOR : ℚ := 5 / 10000

def STEERING_DISTANCE : ℚ := 25

def STEERING_DISTANCE_SQUARED : ℚ := STEERING_DISTANCE * STEERING_DISTANCE

def INFLUENCE_DISTANCE : ℚ := 75

def INFLUENCE_DISTANCE_SQUARED : ℚ := INFLUENCE_DISTANCE * INFLUENCE_DISTANCE

/-- `usize::MAX` on the 64-bit targets the program is built for. -/
def USIZE_MAX : ℕ := 2 ^ 64 - 1

/-- Truncation of a rational toward zero — the rounding used both by Rust's
float-to-integer casts and by the float remainder operator. -/
def qtrunc (q : ℚ) : ℤ := if 0 ≤ q then ⌊q⌋ else ⌈q⌉

/-- A Rust `f32 as usize` cast: truncate toward zero, saturating at `0` below
and at `usize::MAX` above (for nonnegative `q`, truncation is the floor). -/
def ratToUsize (q : ℚ) : ℕ := if q < 0 then 0 else min ⌊q⌋.toNat USIZE_MAX

/-- `LOCATION_GRID_HEIGHT = (SCREEN_HEIGHT / INFLUENCE_DISTANCE) as usize + 1`. -/
def LOCATION_GRID_HEIGHT : ℕ := ratToUsize (SCREEN_HEIGHT / INFLUENCE_DISTANCE) + 1

/-- `LOCATION_GRID_WIDTH = (SCREEN_WIDTH / INFLUENCE_DISTANCE) as usize + 1`. -/
def LOCATION_GRID_WIDTH : ℕ := ratToUsize (SCREEN_WIDTH / INFLUENCE_DISTANCE) + 1

/-- The `f32` `%` operator (remainder truncated toward zero), exactly. -/
def truncRem (x w : ℚ) : ℚ := x - w * (qtrunc (x / w) : ℚ)

/-- `f32::rem_euclid`, as in its Rust source: take the truncated remainder and
add `|w|` if it came out negative. -/
def rem_euclid (x w : ℚ) : ℚ :=
  let r := truncRem x w
  if r < 0 then r + |w| else r

/-! ### The data model: `Boid`, `GridBoid`, `BoidsSim`

`Color` values are drawn from the fixed seven-element palette `BOID_COLORS`
and are only ever compared for equality, so they are modelled as palette
indices. -/

structure Boid where
  pos : Vec2
  speed : Vec2
  color : ℕ
deriving DecidableEq

/-- `GridBoid`: a boid together with its recorded grid coordinates. -/
structure GridBoid where
  boid : Boid
  row : ℕ
  col : ℕ
deriving DecidableEq

instance : Inhabited Boid := ⟨⟨(0, 0), (0, 0), 0⟩⟩

instance : Inhabited GridBoid := ⟨⟨default, 0, 0⟩⟩

/-- The location grid, `Vec<Vec<HashSet<usize>>>`, modelled as a total map
from `(row, col)` to the cell's set of boid indices.  (Out-of-bounds accesses
panic in Rust; the safety claim shows the program only computes in-bounds
coordinates.) -/
abbrev LocationGrid : Type := ℕ → ℕ → Finset ℕ

/-- The simulation state fields the verified claims depend on. -/
structure BoidsSim where
  boids : List GridBoid
  grid : LocationGrid
  leader_idx : Option ℕ

/-- `self.boids[i]`. -/
def BoidsSim.boidAt (sim : BoidsSim) (i : ℕ) : GridBoid := sim.boids.getD i default

/-- `Boid::go_forward`: advance the position by the velocity, then wrap each
coordinate into the screen with `rem_euclid`. -/
def Boid.go_forward (b : Boid) : Boid :=
  let p := b.pos + b.speed
  { b with pos := (rem_euclid p.1 SCREEN_WIDTH, rem_euclid p.2 SCREEN_HEIGHT) }

/-- The `(row, col)` grid cell computed from a position in
`recalculate_boid_indices` (and in `get_random_boids`):
`((pos.y / INFLUENCE_DISTANCE) as usize, (pos.x / INFLUENCE_DISTANCE) as usize)`. -/
def cellOfPos (p : Vec2) : ℕ × ℕ :=
  (ratToUsize (p.2 / INFLUENCE_DISTANCE), ratToUsize (p.1 / INFLUENCE_DISTANCE))

/-! ### Range of `rem_euclid` -/

lemma truncRem_bounds (x w : ℚ) (hw : 0 < w) :
    (0 ≤ x / w → 0 ≤ truncRem x w ∧ truncRem x w < w) ∧
    (x / w < 0 → -w < truncRem x w ∧ truncRem x w ≤ 0) := by
  constructor
  · intro h
    have hq : qtrunc (x / w) = ⌊x / w⌋ := if_pos h
    unfold truncRem
    rw [hq]
    constructor
    · have hle : (⌊x / w⌋ : ℚ) ≤ x / w := Int.floor_le _
      have := (le_div_iff hw).mp hle
      linarith
    · have hlt : x / w < ⌊x / w⌋ + 1 := Int.lt_floor_add_one _
      have := (div_lt_iff hw).mp hlt
      nlinarith
  · intro h
    have hq : qtrunc (x / w) = ⌈x / w⌉ := if_neg (by linarith)
    unfold truncRem
    rw [hq]
    constructor
    · have hlt : (⌈x / w⌉ : ℚ) < x / w + 1 := Int.ceil_lt_add_one _
      have h2 : (⌈x / w⌉ : ℚ) - 1 < x / w := by linarith
      have := (lt_div_iff hw).mp h2
      nlinarith
    · have hle : x / w ≤ (⌈x / w⌉ : ℚ) := Int.le_ceil _
      have := (div_le_iff hw).mp hle
      linarith

lemma rem_euclid_bounds (x w : ℚ) (hw : 0 < w) :
    0 ≤ rem_euclid x w ∧ rem_euclid x w < w := by
  unfold rem_euclid
  have habs : |w| = w := abs_of_pos hw
  rcases le_or_lt 0 (x / w) with h | h
  · obtain ⟨h0, h1⟩ := (truncRem_bounds x w hw).1 h
    simp only [habs]
    split
    · constructor <;> linarith
    · exact ⟨h0, h1⟩
  · obtain ⟨h0, h1⟩ := (truncRem_bounds x w hw).2 h
    simp only [habs]
    split
    · constructor <;> linarith
    · constructor
      · linarith
      · linarith

/-! ### `run_for_neighbor_cells`

The source iterates `row_shift` in `-1..=1` (skipping the inner loop when the
shifted row is outside the grid) and, inside it, `col_shift` in `-1..=1`
(skipping out-of-range columns).  This is flattened here into one pass over the
nine shift pairs in the same (row-major) order with the same guards, which
yields the identical sequence of visited `(row, col)` cells. -/

def shiftPairs : List (ℤ × ℤ) :=
  [(-1, -1), (-1, 0), (-1, 1), (0, -1), (0, 0), (0, 1), (1, -1), (1, 0), (1, 1)]

/-- `run_for_neighbor_cells`, as the list of `(row, col)` cells it visits, in
visit order. -/
def run_for_neighbor_cells (row col width height : ℕ) : List (ℕ × ℕ) :=
  shiftPairs.filterMap fun s =>
    let current_row := s.1 + (row : ℤ)
    let current_col := s.2 + (col : ℤ)
    if 0 ≤ current_row ∧ current_row < (height : ℤ) ∧
        0 ≤ current_col ∧ current_col < (width : ℤ) then
      some (current_row.toNat, current_col.toNat)
    else none

/-! ### Separation (`calc_separation_directions`) -/

/-- The intra-tick cache `HashMap<(&GridBoid, &GridBoid), Vec2>`, modelled as
an association list searched with the program's key equality. -/
abbrev SubCache : Type := List ((GridBoid × GridBoid) × Vec2)

/-- The derived `PartialEq` on `GridBoid`: componentwise on `boid`, `row`,
`col`, where the hand-written `PartialEq for Boid` compares only position and
velocity (never the color).  Over `ℚ` there are no NaNs or signed zeros, so
`f32` comparison coincides with equality. -/
def gbeq (a b : GridBoid) : Bool :=
  decide (a.boid.pos = b.boid.pos) && decide (a.boid.speed = b.boid.speed) &&
    decide (a.row = b.row) && decide (a.col = b.col)

/-- `sub_cache.get(&key)`. -/
def subCacheLookup (cache : SubCache) (k : GridBoid × GridBoid) : Option Vec2 :=
  (cache.find? fun e => gbeq e.1.1 k.1 && gbeq e.1.2 k.2).map fun e => e.2

/-- The iteration order of a `HashSet` is unspecified; the model fixes the
ascending order of the indices.  Every accumulation it feeds is commutative
over `ℚ` (for the cached separation pass this is proved, not assumed, via the
cache invariant), so the choice is immaterial. -/
def cellList (sim : BoidsSim) (rc : ℕ × ℕ) : List ℕ := (sim.grid rc.1 rc.2).sort (· ≤ ·)

/-- The body of the separation loop for one candidate `other_idx`, threading
the running direction and the subtraction cache: skip the boid itself, skip
boids beyond `STEERING_DISTANCE_SQUARED`, then either reuse the cached
displacement of the reversed pair (negated, via subtraction) or compute,
accumulate and cache the displacement. -/
def sepStep (sim : BoidsSim) (i : ℕ) (this : GridBoid) (st : Vec2 × SubCache)
    (other_idx : ℕ) : Vec2 × SubCache :=
  if i = other_idx then st
  else
    let other := sim.boidAt other_idx
    if STEERING_DISTANCE_SQUARED < distance_squared this.boid.pos other.boid.pos then st
    else
      match subCacheLookup st.2 (other, this) with
      | some sub => (st.1 - sub, st.2)
      | none =>
        let sub := other.boid.pos - this.boid.pos
        (st.1 + sub, ((this, other), sub) :: st.2)

/-- One boid's separation pass over its 3×3 cell neighborhood. -/
def sepBoid (sim : BoidsSim) (i : ℕ) (this : GridBoid) (cache : SubCache) :
    Vec2 × SubCache :=
  (run_for_neighbor_cells this.row this.col LOCATION_GRID_WIDTH LOCATION_GRID_HEIGHT).foldl
    (fun st rc => (cellList sim rc).foldl (sepStep sim i this) st) ((0 : Vec2), cache)

/-- The enumerated `map` over `self.boids`, threading the mutable cache from
one boid to the next; each boid's direction is finally scaled by
`-SEPARATION_FACTOR`. -/
def sepGo (sim : BoidsSim) : ℕ → List GridBoid → SubCache → List Vec2
  | _, [], _ => []
  | i, gb :: rest, cache =>
    let st := sepBoid sim i gb cache
    vscale (-SEPARATION_FACTOR) st.1 :: sepGo sim (i + 1) rest st.2

/-- `BoidsSim::calc_separation_directions`. -/
def calc_separation_directions (sim : BoidsSim) : List Vec2 := sepGo sim 0 sim.boids []

/-- The separation contribution of one candidate boid without any cache: the
displacement `other - this` whenever the candidate qualifies, zero otherwise. -/
def sepContrib (sim : BoidsSim) (i : ℕ) (this : GridBoid) (other_idx : ℕ) : Vec2 :=
  if i = other_idx then (0 : Vec2)
  else
    let other := sim.boidAt other_idx
    if STEERING_DISTANCE_SQUARED < distance_squared this.boid.pos other.boid.pos then (0 : Vec2)
    else other.boid.pos - this.boid.pos

/-- Modelled from the spec: the naive separation pass for one boid, performing
"every vector subtraction directly" with no pairwise cache (the comparison
point of the cache-refinement claim). -/
def sepBoidNoCache (sim : BoidsSim) (i : ℕ) (this : GridBoid) : Vec2 :=
  (run_for_neighbor_cells this.row this.col LOCATION_GRID_WIDTH LOCATION_GRID_HEIGHT).foldl
    (fun d rc => d + ((cellList sim rc).map (sepContrib sim i this)).sum) (0 : Vec2)

/-- Modelled from the spec: the cache-free separation computation. -/
def sepGoNoCache (sim : BoidsSim) : ℕ → List GridBoid → List Vec2
  | _, [] => []
  | i, gb :: rest =>
    vscale (-SEPARATION_FACTOR) (sepBoidNoCache sim i gb) :: sepGoNoCache sim (i + 1) rest

/-- Modelled from the spec: `calc_separation_directions` without the cache. -/
def calc_separation_directions_nocache (sim : BoidsSim) : List Vec2 :=
  sepGoNoCache sim 0 sim.boids

/-! ### Alignment and cohesion -/

/-- The neighbor filter shared verbatim by `calc_alignment_directions` and
`calc_cohesion_directions`: within the influence radius (the loop `continue`s
when the squared distance exceeds the threshold) and of the same color. -/
def influenceKeep (sim : BoidsSim) (this : GridBoid) (j : ℕ) : Prop :=
  distance_squared this.boid.pos (sim.boidAt j).boid.pos ≤ INFLUENCE_DISTANCE_SQUARED ∧
    this.boid.color = (sim.boidAt j).boid.color

instance (sim : BoidsSim) (this : GridBoid) (j : ℕ) : Decidable (influenceKeep sim this j) := by
  unfold influenceKeep; infer_instance

/-- One cell's update of the running `(sum, count)` pair of the alignment loop
(summing velocities). -/
def alignCell (sim : BoidsSim) (this : GridBoid) (acc : Vec2 × ℕ) (rc : ℕ × ℕ) :
    Vec2 × ℕ :=
  (acc.1 + ∑ j in (sim.grid rc.1 rc.2).filter (influenceKeep sim this),
      (sim.boidAt j).boid.speed,
    acc.2 + ((sim.grid rc.1 rc.2).filter (influenceKeep sim this)).card)

/-- `BoidsSim::calc_alignment_directions`. -/
def calc_alignment_directions (sim : BoidsSim) : List Vec2 :=
  sim.boids.map fun this =>
    let sc := (run_for_neighbor_cells this.row this.col LOCATION_GRID_WIDTH
      LOCATION_GRID_HEIGHT).foldl (alignCell sim this) ((0 : Vec2), 0)
    if sc.2 = 1 then (0 : Vec2)
    else vscale ALIGNMENT_FACTOR (vscale ((sc.2 : ℚ))⁻¹ sc.1 - this.boid.speed)

/-- One cell's update of the running `(sum, count)` pair of the cohesion loop
(summing positions). -/
def cohCell (sim : BoidsSim) (this : GridBoid) (acc : Vec2 × ℕ) (rc : ℕ × ℕ) :
    Vec2 × ℕ :=
  (acc.1 + ∑ j in (sim.grid rc.1 rc.2).filter (influenceKeep sim this),
      (sim.boidAt j).boid.pos,
    acc.2 + ((sim.grid rc.1 rc.2).filter (influenceKeep sim this)).card)

/-- `BoidsSim::calc_cohesion_directions`. -/
def calc_cohesion_directions (sim : BoidsSim) : List Vec2 :=
  sim.boids.map fun this =>
    let sc := (run_for_neighbor_cells this.row this.col LOCATION_GRID_WIDTH
      LOCATION_GRID_HEIGHT).foldl (cohCell sim this) ((0 : Vec2), 0)
    if sc.2 = 1 then (0 : Vec2)
    else vscale COHESION_FACTOR (vscale ((sc.2 : ℚ))⁻¹ sc.1 - this.boid.pos)

/-- `BoidsSim::calc_leader_directions`. -/
def calc_leader_directions (sim : BoidsSim) : List Vec2 :=
  match sim.leader_idx with
  | some idx =>
    (List.range sim.boids.length).map fun i =>
      vscale LEADER_FACTOR ((sim.boidAt idx).boid.pos - (sim.boidAt i).boid.pos)
  | none => List.replicate sim.boids.length (0 : Vec2)

/-! ### Grid re-indexing (`recalculate_boid_indices`) -/

/-- Functional update of one grid cell. -/
def updateCell (g : LocationGrid) (r c : ℕ) (f : Finset ℕ → Finset ℕ) : LocationGrid :=
  fun r' c' => if r' = r ∧ c' = c then f (g r c) else g r' c'

/-- The loop body of `recalculate_boid_indices` for boid `i`: compute the new
cell from the position, remove `i` from the outdated cell, record the new cell
in the boid, insert `i` into the new cell. -/
def reindexOne (g : LocationGrid) (i : ℕ) (gb : GridBoid) : LocationGrid × GridBoid :=
  let rc := cellOfPos gb.boid.pos
  let g1 := updateCell g gb.row gb.col (fun s => s.erase i)
  let g2 := updateCell g1 rc.1 rc.2 (fun s => insert i s)
  (g2, { gb with row := rc.1, col := rc.2 })

/-- The enumerated `for_each` of `recalculate_boid_indices`. -/
def reindexGo (g : LocationGrid) (i : ℕ) : List GridBoid → LocationGrid × List GridBoid
  | [] => (g, [])
  | gb :: rest =>
    let p := reindexOne g i gb
    let q := reindexGo p.1 (i + 1) rest
    (q.1, p.2 :: q.2)

/-- `BoidsSim::recalculate_boid_indices`. -/
def recalculate_boid_indices (sim : BoidsSim) : BoidsSim :=
  let p := reindexGo sim.grid 0 sim.boids
  { sim with grid := p.1, boids := p.2 }

/-! ### `impl PartialEq for Boid`: `f32` comparison at the bit level

`Boid::eq` compares `self.pos == other.pos && self.speed == other.speed`,
which `glam` implements as componentwise `f32` equality.  IEEE-754 binary32
equality is decided purely by the 32-bit patterns: a NaN compares unequal to
everything (itself included), the two zeros `+0.0` (`0x00000000`) and `-0.0`
(`0x80000000`) compare equal, and every other pair of patterns compares equal
exactly when the patterns coincide, because the binary32 encoding of values is
injective away from NaN and the zeros. -/

namespace F32

/-- The 8-bit exponent field of a binary32 pattern. -/
def expField (b : ℕ) : ℕ := b / 2 ^ 23 % 2 ^ 8

/-- The 23-bit fraction field of a binary32 pattern. -/
def fracField (b : ℕ) : ℕ := b % 2 ^ 23

/-- A pattern encodes a NaN: exponent all ones, fraction nonzero. -/
def isNaN (b : ℕ) : Bool := decide (expField b = 255) && decide (fracField b ≠ 0)

/-- A pattern encodes a zero: `+0.0` or `-0.0`. -/
def isZero (b : ℕ) : Bool := decide (b = 0) || decide (b = 2 ^ 31)

/-- IEEE-754 `f32 == f32` on bit patterns. -/
def feq (a b : ℕ) : Bool :=
  if isNaN a || isNaN b then false
  else if isZero a && isZero b then true
  else decide (a = b)

/-- A boid with its position and velocity components as binary32 bit
patterns, as hashed and compared by `impl PartialEq for Boid` /
`impl Hash for Boid`. -/
structure Boid32 where
  posx : ℕ
  posy : ℕ
  spdx : ℕ
  spdy : ℕ
  color : ℕ

/-- `<Boid as PartialEq>::eq`: componentwise `f32` equality of position and
velocity; the color is not compared. -/
def beq (a b : Boid32) : Bool :=
  feq a.posx b.posx && feq a.posy b.posy && feq a.spdx b.spdx && feq a.spdy b.spdy

/-- Bitwise equality of position and velocity, as the spec describes agent
equality. -/
def bitwiseEq (a b : Boid32) : Prop :=
  a.posx = b.posx ∧ a.posy = b.posy ∧ a.spdx = b.spdx ∧ a.spdy = b.spdy

/-- Normalize the sign of a zero: map the `-0.0` pattern to `+0.0`. -/
def znorm (b : ℕ) : ℕ := if b = 2 ^ 31 then 0 else b

/-- Some component of the position or velocity is a NaN. -/
def hasNaN (a : Boid32) : Bool :=
  isNaN a.posx || isNaN a.posy || isNaN a.spdx || isNaN a.spdy

/-- The position/velocity bit patterns with zero signs normalized (the color
takes no part in the comparison). -/
def key (a : Boid32) : ℕ × ℕ × ℕ × ℕ :=
  (znorm a.posx, znorm a.posy, znorm a.spdx, znorm a.spdy)

lemma feq_iff (a b : ℕ) :
    feq a b = true ↔ (isNaN a = false ∧ isNaN b = false ∧ znorm a = znorm b) := by
  unfold feq
  by_cases ha : isNaN a = true
  · simp [ha]
  · by_cases hb : isNaN b = true
    · simp [ha, hb]
    · simp only [Bool.not_eq_true] at ha hb
      rw [ha, hb]
      simp only [Bool.or_self, Bool.false_eq_true, if_false, ha, hb, true_and]
      have h31 : (2 : ℕ) ^ 31 = 2147483648 := by norm_num
      by_cases hz : (isZero a && isZero b) = true
      · simp only [hz, if_true, true_iff]
        unfold isZero at hz
        simp only [Bool.and_eq_true, Bool.or_eq_true, decide_eq_true_eq] at hz
        unfold znorm
        rw [h31] at hz ⊢
        split_ifs <;> omega
      · simp only [hz, Bool.false_eq_true, if_false, decide_eq_true_eq]
        unfold isZero at hz
        simp only [Bool.and_eq_true, Bool.or_eq_true, decide_eq_true_eq] at hz
        unfold znorm
        rw [h31] at hz ⊢
        split_ifs <;> omega

lemma beq_iff (a b : Boid32) :
    beq a b = true ↔ (hasNaN a = false ∧ hasNaN b = false ∧ key a = key b) := by
  unfold beq hasNaN key
  simp only [Bool.and_eq_true, feq_iff, Bool.or_eq_false_iff, Prod.mk.injEq]
  tauto

end F32

/-! ### `Boid::add_dir`: the speed limiter, over the reals

The minimum-speed rescale divides by the Euclidean length, so this routine is
embedded over `ℝ` (with `Real.sqrt` for `glam::Vec2::length`). -/

namespace RealVel

def MAX_BOID_VELOCITY : ℝ := 6

def MIN_BOID_VELOCITY : ℝ := 5

/-- `f32::clamp(x, lo, hi)` as used componentwise by `glam::Vec2::clamp`
(for `lo ≤ hi`). -/
def clampAxis (x lo hi : ℝ) : ℝ := min (max x lo) hi

/-- `glam::Vec2::length`. -/
noncomputable def vlen (v : ℝ × ℝ) : ℝ := Real.sqrt (v.1 ^ 2 + v.2 ^ 2)

/-- `glam::Vec2::normalize_or_zero`: `v` scaled to unit length, and the zero
vector for the zero vector. -/
noncomputable def normalize_or_zero (v : ℝ × ℝ) : ℝ × ℝ :=
  if v = (0, 0) then (0, 0) else (v.1 / vlen v, v.2 / vlen v)

/-- The first two statements of `Boid::add_dir`: `self.speed += direction`,
then clamp each axis independently to `[-MAX_BOID_VELOCITY, MAX_BOID_VELOCITY]`. -/
def clampedVel (speed direction : ℝ × ℝ) : ℝ × ℝ :=
  (clampAxis (speed.1 + direction.1) (-MAX_BOID_VELOCITY) MAX_BOID_VELOCITY,
    clampAxis (speed.2 + direction.2) (-MAX_BOID_VELOCITY) MAX_BOID_VELOCITY)

/-- `Boid::add_dir` acting on the velocity: add the direction, clamp each
axis, then rescale to `MIN_BOID_VELOCITY * normalize_or_zero(speed)` when the
resulting length is below `MIN_BOID_VELOCITY`. -/
noncomputable def add_dir (speed direction : ℝ × ℝ) : ℝ × ℝ :=
  let clamped := clampedVel speed direction
  if vlen clamped < MIN_BOID_VELOCITY then
    (MIN_BOID_VELOCITY * (normalize_or_zero clamped).1,
      MIN_BOID_VELOCITY * (normalize_or_zero clamped).2)
  else clamped

lemma vlen_nonneg (v : ℝ × ℝ) : 0 ≤ vlen v := Real.sqrt_nonneg _

lemma vlen_eq_zero_iff (v : ℝ × ℝ) : vlen v = 0 ↔ v = (0, 0) := by
  constructor
  · intro h
    have h0 : v.1 ^ 2 + v.2 ^ 2 ≤ 0 := Real.sqrt_eq_zero'.mp h
    have h1 : v.1 = 0 := by nlinarith [sq_nonneg v.1, sq_nonneg v.2]
    have h2 : v.2 = 0 := by nlinarith [sq_nonneg v.1, sq_nonneg v.2]
    rw [Prod.ext_iff]
    exact ⟨h1, h2⟩
  · intro h
    rw [h]
    unfold vlen
    norm_num

lemma vlen_normalize (v : ℝ × ℝ) (hv : v ≠ (0, 0)) : vlen (normalize_or_zero v) = 1 := by
  have hl : 0 < vlen v :=
    (vlen_nonneg v).lt_of_ne fun h => hv ((vlen_eq_zero_iff v).mp h.symm)
  unfold normalize_or_zero
  rw [if_neg hv]
  show Real.sqrt ((v.1 / vlen v) ^ 2 + (v.2 / vlen v) ^ 2) = 1
  have hrw : (v.1 / vlen v) ^ 2 + (v.2 / vlen v) ^ 2 =
      (v.1 ^ 2 + v.2 ^ 2) / (vlen v) ^ 2 := by ring
  rw [hrw, Real.sqrt_div (by positivity : (0:ℝ) ≤ v.1 ^ 2 + v.2 ^ 2) _,
    Real.sqrt_sq hl.le]
  exact div_self (ne_of_gt hl)

lemma vlen_min_scale (v : ℝ × ℝ) :
    vlen (MIN_BOID_VELOCITY * v.1, MIN_BOID_VELOCITY * v.2) =
      MIN_BOID_VELOCITY * vlen v := by
  show Real.sqrt ((MIN_BOID_VELOCITY * v.1) ^ 2 + (MIN_BOID_VELOCITY * v.2) ^ 2) =
    MIN_BOID_VELOCITY * vlen v
  have hrw : (MIN_BOID_VELOCITY * v.1) ^ 2 + (MIN_BOID_VELOCITY * v.2) ^ 2 =
      MIN_BOID_VELOCITY ^ 2 * (v.1 ^ 2 + v.2 ^ 2) := by ring
  rw [hrw, Real.sqrt_mul (sq_nonneg _) _,
    Real.sqrt_sq (by norm_num [MIN_BOID_VELOCITY] : (0:ℝ) ≤ MIN_BOID_VELOCITY)]
  rfl

end RealVel

/-! ### Shared lemmas about the neighborhood iteration and grid sums -/

set_option maxHeartbeats 800000 in
lemma mem_run_for_neighbor_cells (row col width height r c : ℕ) :
    (r, c) ∈ run_for_neighbor_cells row col width height ↔
      (r < height ∧ c < width ∧
        row ≤ r + 1 ∧ r ≤ row + 1 ∧ col ≤ c + 1 ∧ c ≤ col + 1) := by
  simp only [run_for_neighbor_cells, shiftPairs, List.mem_filterMap, List.mem_cons,
    List.not_mem_nil, or_false, exists_eq_or_imp, exists_eq_left,
    Option.ite_none_right_eq_some, Option.some.injEq, Prod.mk.injEq]
  constructor
  · intro h
    rcases h with h | h | h | h | h | h | h | h | h <;> omega
  · intro h
    have hr3 : r + 1 = row ∨ r = row ∨ r = row + 1 := by omega
    have hc3 : c + 1 = col ∨ c = col ∨ c = col + 1 := by omega
    rcases hr3 with hr | hr | hr <;> rcases hc3 with hc | hc | hc
    · exact Or.inl (by omega)
    · exact Or.inr (Or.inl (by omega))
    · exact Or.inr (Or.inr (Or.inl (by omega)))
    · exact Or.inr (Or.inr (Or.inr (Or.inl (by omega))))
    · exact Or.inr (Or.inr (Or.inr (Or.inr (Or.inl (by omega)))))
    · exact Or.inr (Or.inr (Or.inr (Or.inr (Or.inr (Or.inl (by omega))))))
    · exact Or.inr (Or.inr (Or.inr (Or.inr (Or.inr (Or.inr (Or.inl (by omega)))))))
    · exact Or.inr (Or.inr (Or.inr (Or.inr (Or.inr (Or.inr (Or.inr (Or.inl (by omega))))))))
    · exact Or.inr (Or.inr (Or.inr (Or.inr (Or.inr (Or.inr (Or.inr (Or.inr (by omega))))))))

lemma nodup_run_for_neighbor_cells (row col width height : ℕ) :
    (run_for_neighbor_cells row col width height).Nodup := by
  refine List.Nodup.filterMap ?_ (by decide)
  intro s t x hs ht
  simp only [Option.mem_def, Option.ite_none_right_eq_some, Option.some.injEq] at hs ht
  obtain ⟨⟨h1, h2, h3, h4⟩, hx⟩ := hs
  obtain ⟨⟨g1, g2, g3, g4⟩, gx⟩ := ht
  rw [← hx] at gx
  have e1 : s.1 = t.1 := by
    have := congrArg Prod.fst gx
    simp only at this
    omega
  have e2 : s.2 = t.2 := by
    have := congrArg Prod.snd gx
    simp only at this
    omega
  exact Prod.ext e1 e2

lemma foldl_add_eq {M : Type} [AddCommMonoid M] {α : Type} (g : α → M) :
    ∀ (l : List α) (a : M), l.foldl (fun d x => d + g x) a = a + (l.map g).sum := by
  intro l
  induction l with
  | nil => intro a; simp
  | cons x xs ih => intro a; simp only [List.foldl_cons, List.map_cons, List.sum_cons, ih,
      add_assoc]

lemma sum_sort_map {M : Type} [AddCommMonoid M] (s : Finset ℕ) (g : ℕ → M) :
    ((s.sort (· ≤ ·)).map g).sum = ∑ j in s, g j := by
  rw [show (∑ j in s, g j) = (s.val.map g).sum from rfl]
  rw [← Finset.sort_eq (· ≤ ·) s, Multiset.map_coe, Multiset.sum_coe]

/-- The grid/boid consistency invariant that holds between re-index calls:
every index stored in a cell is a valid boid index recording exactly that
cell, and every valid boid index is stored in its recorded cell. -/
def GridConsistent (sim : BoidsSim) : Prop :=
  (∀ r c j, j ∈ sim.grid r c → j < sim.boids.length ∧
      (sim.boidAt j).row = r ∧ (sim.boidAt j).col = c) ∧
  (∀ j, j < sim.boids.length → j ∈ sim.grid (sim.boidAt j).row (sim.boidAt j).col)

lemma grid_cell_eq (sim : BoidsSim) (h : GridConsistent sim) (rc : ℕ × ℕ) :
    sim.grid rc.1 rc.2 = (Finset.range sim.boids.length).filter
      (fun j => ((sim.boidAt j).row, (sim.boidAt j).col) = rc) := by
  ext j
  simp only [Finset.mem_filter, Finset.mem_range, Prod.mk.injEq, Prod.ext_iff]
  constructor
  · intro hj
    obtain ⟨hlen, hr, hc⟩ := h.1 rc.1 rc.2 j hj
    exact ⟨hlen, hr, hc⟩
  · rintro ⟨hlen, hr, hc⟩
    have hmem := h.2 j hlen
    rw [hr, hc] at hmem
    exact hmem

lemma cells_fold_sum {M : Type} [AddCommMonoid M] (sim : BoidsSim)
    (h : GridConsistent sim) (g : ℕ → M) :
    ∀ cells : List (ℕ × ℕ), cells.Nodup →
      cells.foldl (fun acc rc => acc + ∑ j in sim.grid rc.1 rc.2, g j) 0 =
        ∑ j in (Finset.range sim.boids.length).filter
          (fun j => ((sim.boidAt j).row, (sim.boidAt j).col) ∈ cells), g j := by
  intro cells
  induction cells with
  | nil => intro _; simp
  | cons rc rest ih =>
    intro hnd
    have hsplit : ∀ a : M, rest.foldl (fun acc rc => acc + ∑ j in sim.grid rc.1 rc.2, g j) a =
        a + rest.foldl (fun acc rc => acc + ∑ j in sim.grid rc.1 rc.2, g j) 0 := by
      intro a
      rw [foldl_add_eq, foldl_add_eq, zero_add]
    rw [List.foldl_cons, hsplit, zero_add, ih (List.nodup_cons.mp hnd).2]
    rw [grid_cell_eq sim h rc]
    have hdisj : Disjoint
        ((Finset.range sim.boids.length).filter
          (fun j => ((sim.boidAt j).row, (sim.boidAt j).col) = rc))
        ((Finset.range sim.boids.length).filter
          (fun j => ((sim.boidAt j).row, (sim.boidAt j).col) ∈ rest)) := by
      rw [Finset.disjoint_left]
      intro j hj1 hj2
      rw [Finset.mem_filter] at hj1 hj2
      exact (List.nodup_cons.mp hnd).1 (hj1.2 ▸ hj2.2)
    rw [← Finset.sum_union hdisj, ← Finset.filter_or]
    apply Finset.sum_congr
    · apply Finset.filter_congr
      intro j _
      simp [List.mem_cons]
    · intro j _
      rfl

/-! ### Correctness of the displacement cache -/

/-- The cache invariant: every stored entry maps its (value-compared) key pair
`(a, b)` to the displacement `b.pos - a.pos`. -/
def CacheOK (cache : SubCache) : Prop :=
  ∀ e ∈ cache, e.2 = e.1.2.boid.pos - e.1.1.boid.pos

lemma gbeq_pos {a b : GridBoid} (h : gbeq a b = true) : a.boid.pos = b.boid.pos := by
  unfold gbeq at h
  simp only [Bool.and_eq_true, decide_eq_true_eq] at h
  exact h.1.1.1

lemma subCacheLookup_ok {cache : SubCache} (hok : CacheOK cache) (a b : GridBoid)
    (v : Vec2) (hl : subCacheLookup cache (a, b) = some v) :
    v = b.boid.pos - a.boid.pos := by
  unfold subCacheLookup at hl
  cases hfind : cache.find? (fun e => gbeq e.1.1 a && gbeq e.1.2 b) with
  | none => rw [hfind] at hl; simp at hl
  | some e =>
    rw [hfind] at hl
    simp only [Option.map_some', Option.some.injEq] at hl
    have hmem := List.mem_of_find?_eq_some hfind
    have hpred := List.find?_some hfind
    simp only [Bool.and_eq_true] at hpred
    rw [← hl, hok e hmem, gbeq_pos hpred.1, gbeq_pos hpred.2]

lemma sepStep_spec (sim : BoidsSim) (i : ℕ) (this : GridBoid) (st : Vec2 × SubCache)
    (hok : CacheOK st.2) (oidx : ℕ) :
    (sepStep sim i this st oidx).1 = st.1 + sepContrib sim i this oidx ∧
      CacheOK (sepStep sim i this st oidx).2 := by
  unfold sepStep sepContrib
  by_cases h1 : i = oidx
  · simp only [h1, if_true, if_pos rfl]
    exact ⟨by rw [add_zero], hok⟩
  · rw [if_neg h1, if_neg h1]
    by_cases h2 : STEERING_DISTANCE_SQUARED <
        distance_squared this.boid.pos (sim.boidAt oidx).boid.pos
    · rw [if_pos h2, if_pos h2]
      exact ⟨by rw [add_zero], hok⟩
    · rw [if_neg h2, if_neg h2]
      cases hl : subCacheLookup st.2 (sim.boidAt oidx, this) with
      | some sub =>
        dsimp only
        constructor
        · rw [subCacheLookup_ok hok _ _ _ hl]
          abel
        · exact hok
      | none =>
        dsimp only
        refine ⟨rfl, ?_⟩
        intro e he
        rcases List.mem_cons.mp he with he | he
        · rw [he]
        · exact hok e he

lemma sepFoldl_spec (sim : BoidsSim) (i : ℕ) (this : GridBoid) :
    ∀ (l : List ℕ) (st : Vec2 × SubCache), CacheOK st.2 →
      (l.foldl (sepStep sim i this) st).1 =
          st.1 + (l.map (sepContrib sim i this)).sum ∧
        CacheOK (l.foldl (sepStep sim i this) st).2 := by
  intro l
  induction l with
  | nil => intro st h; exact ⟨by simp, h⟩
  | cons x xs ih =>
    intro st h
    obtain ⟨h1, h2⟩ := sepStep_spec sim i this st h x
    obtain ⟨ih1, ih2⟩ := ih (sepStep sim i this st x) h2
    refine ⟨?_, by rw [List.foldl_cons]; exact ih2⟩
    rw [List.foldl_cons, ih1, h1, List.map_cons, List.sum_cons, add_assoc]

lemma sepCellsFoldl_spec (sim : BoidsSim) (i : ℕ) (this : GridBoid) :
    ∀ (cells : List (ℕ × ℕ)) (st : Vec2 × SubCache), CacheOK st.2 →
      (cells.foldl (fun st rc => (cellList sim rc).foldl (sepStep sim i this) st) st).1
          = st.1 +
            (cells.map fun rc => ((cellList sim rc).map (sepContrib sim i this)).sum).sum ∧
        CacheOK
          (cells.foldl (fun st rc => (cellList sim rc).foldl (sepStep sim i this) st) st).2 := by
  intro cells
  induction cells with
  | nil => intro st h; exact ⟨by simp, h⟩
  | cons rc rest ih =>
    intro st h
    obtain ⟨h1, h2⟩ := sepFoldl_spec sim i this (cellList sim rc) st h
    obtain ⟨ih1, ih2⟩ := ih _ h2
    refine ⟨?_, by simpa only [List.foldl_cons] using ih2⟩
    rw [List.foldl_cons, ih1, h1, List.map_cons, List.sum_cons, add_assoc]

lemma sepBoid_spec (sim : BoidsSim) (i : ℕ) (this : GridBoid) (cache : SubCache)
    (hok : CacheOK cache) :
    (sepBoid sim i this cache).1 = sepBoidNoCache sim i this ∧
      CacheOK (sepBoid sim i this cache).2 := by
  unfold sepBoid sepBoidNoCache
  obtain ⟨h1, h2⟩ := sepCellsFoldl_spec sim i this
    (run_for_neighbor_cells this.row this.col LOCATION_GRID_WIDTH LOCATION_GRID_HEIGHT)
    ((0 : Vec2), cache) hok
  refine ⟨?_, h2⟩
  rw [h1, foldl_add_eq]

lemma cacheOK_nil : CacheOK [] := fun e he => absurd he (List.not_mem_nil e)

lemma sepGo_eq_nocache (sim : BoidsSim) :
    ∀ (l : List GridBoid) (k : ℕ) (cache : SubCache), CacheOK cache →
      sepGo sim k l cache = sepGoNoCache sim k l := by
  intro l
  induction l with
  | nil => intro k cache _; rfl
  | cons gb rest ih =>
    intro k cache h
    obtain ⟨h1, h2⟩ := sepBoid_spec sim k gb cache h
    simp only [sepGo, sepGoNoCache]
    rw [h1]
    exact congrArg (List.cons _) (ih (k + 1) _ h2)

lemma sepGoNoCache_getD (sim : BoidsSim) :
    ∀ (l : List GridBoid) (k i : ℕ), i < l.length →
      (sepGoNoCache sim k l).getD i 0 =
        vscale (-SEPARATION_FACTOR) (sepBoidNoCache sim (k + i) (l.getD i default)) := by
  intro l
  induction l with
  | nil => intro k i h; simp at h
  | cons gb rest ih =>
    intro k i h
    cases i with
    | zero => simp [sepGoNoCache]
    | succ n =>
      simp only [sepGoNoCache, List.getD_cons_succ]
      rw [ih (k + 1) n (by simpa using h)]
      rw [show k + 1 + n = k + (n + 1) from by omega]

/-- The qualifying separation neighbors of agent `i`: distinct agents recorded
in one of the cells visited around `i`'s cell, within the steering radius. -/
def sepNeighbors (sim : BoidsSim) (i : ℕ) : Finset ℕ :=
  (Finset.range sim.boids.length).filter fun j =>
    j ≠ i ∧
    ((sim.boidAt j).row, (sim.boidAt j).col) ∈
      run_for_neighbor_cells (sim.boidAt i).row (sim.boidAt i).col
        LOCATION_GRID_WIDTH LOCATION_GRID_HEIGHT ∧
    distance_squared (sim.boidAt i).boid.pos (sim.boidAt j).boid.pos ≤
      STEERING_DISTANCE_SQUARED

lemma sepContrib_ite (sim : BoidsSim) (i j : ℕ) :
    sepContrib sim i (sim.boidAt i) j =
      if j ≠ i ∧ distance_squared (sim.boidAt i).boid.pos (sim.boidAt j).boid.pos ≤
          STEERING_DISTANCE_SQUARED
      then (sim.boidAt j).boid.pos - (sim.boidAt i).boid.pos else 0 := by
  unfold sepContrib
  dsimp only
  by_cases h1 : i = j
  · subst h1
    simp
  · rw [if_neg h1]
    by_cases h2 : STEERING_DISTANCE_SQUARED <
        distance_squared (sim.boidAt i).boid.pos (sim.boidAt j).boid.pos
    · rw [if_pos h2, if_neg fun hc => absurd hc.2 (not_le.mpr h2)]
    · rw [if_neg h2, if_pos ⟨fun hj => h1 hj.symm, not_lt.mp h2⟩]

lemma sepBoidNoCache_sum (sim : BoidsSim) (h : GridConsistent sim) (i : ℕ) :
    sepBoidNoCache sim i (sim.boidAt i) =
      ∑ j in sepNeighbors sim i,
        ((sim.boidAt j).boid.pos - (sim.boidAt i).boid.pos) := by
  unfold sepBoidNoCache
  have hfun : (fun (d : Vec2) (rc : ℕ × ℕ) =>
      d + ((cellList sim rc).map (sepContrib sim i (sim.boidAt i))).sum) =
      fun d rc => d + ∑ j in sim.grid rc.1 rc.2, sepContrib sim i (sim.boidAt i) j := by
    funext d rc
    congr 1
    exact sum_sort_map _ _
  rw [hfun, cells_fold_sum sim h _ _ (nodup_run_for_neighbor_cells _ _ _ _)]
  rw [Finset.sum_congr rfl fun j _ => sepContrib_ite sim i j]
  rw [← Finset.sum_filter]
  apply Finset.sum_congr
  · unfold sepNeighbors
    rw [Finset.filter_filter]
    apply Finset.filter_congr
    intro j _
    constructor
    · rintro ⟨ha, hb, hc⟩
      exact ⟨hb, ha, hc⟩
    · rintro ⟨hb, ha, hc⟩
      exact ⟨ha, hb, hc⟩
  · intro j _
    rfl

/-! ### Alignment and cohesion folds -/

lemma foldl_pair_eq {α M N : Type} [AddCommMonoid M] [AddCommMonoid N]
    (f : α → M) (g : α → N) :
    ∀ (l : List α) (ab : M × N),
      l.foldl (fun acc x => (acc.1 + f x, acc.2 + g x)) ab =
        (l.foldl (fun a x => a + f x) ab.1, l.foldl (fun b x => b + g x) ab.2) := by
  intro l
  induction l with
  | nil => intro ab; exact Prod.mk.eta.symm
  | cons x xs ih =>
    intro ab
    simp only [List.foldl_cons]
    exact ih (ab.1 + f x, ab.2 + g x)

lemma cells_fold_filtered {M : Type} [AddCommMonoid M] (sim : BoidsSim)
    (h : GridConsistent sim) (p : ℕ → Prop) [DecidablePred p] (g : ℕ → M)
    (cells : List (ℕ × ℕ)) (hnd : cells.Nodup) :
    cells.foldl (fun acc rc => acc + ∑ j in (sim.grid rc.1 rc.2).filter p, g j) 0 =
      ∑ j in (Finset.range sim.boids.length).filter
        (fun j => (((sim.boidAt j).row, (sim.boidAt j).col) ∈ cells) ∧ p j), g j := by
  have hfun : (fun (acc : M) (rc : ℕ × ℕ) =>
      acc + ∑ j in (sim.grid rc.1 rc.2).filter p, g j) =
      fun acc rc => acc + ∑ j in sim.grid rc.1 rc.2, (if p j then g j else 0) := by
    funext acc rc
    rw [Finset.sum_filter]
  rw [hfun, cells_fold_sum sim h _ cells hnd, ← Finset.sum_filter, Finset.filter_filter]

/-- The qualifying alignment/cohesion group of agent `i`: agents (including `i`
itself) recorded in one of the cells visited around `i`'s cell, within the
influence radius and of `i`'s color. -/
def influenceNeighbors (sim : BoidsSim) (i : ℕ) : Finset ℕ :=
  (Finset.range sim.boids.length).filter fun j =>
    (((sim.boidAt j).row, (sim.boidAt j).col) ∈
      run_for_neighbor_cells (sim.boidAt i).row (sim.boidAt i).col
        LOCATION_GRID_WIDTH LOCATION_GRID_HEIGHT) ∧
    influenceKeep sim (sim.boidAt i) j

lemma alignCell_fold (sim : BoidsSim) (h : GridConsistent sim) (i : ℕ) :
    (run_for_neighbor_cells (sim.boidAt i).row (sim.boidAt i).col
        LOCATION_GRID_WIDTH LOCATION_GRID_HEIGHT).foldl
        (alignCell sim (sim.boidAt i)) ((0 : Vec2), 0) =
      (∑ j in influenceNeighbors sim i, (sim.boidAt j).boid.speed,
        (influenceNeighbors sim i).card) := by
  rw [show (run_for_neighbor_cells (sim.boidAt i).row (sim.boidAt i).col
        LOCATION_GRID_WIDTH LOCATION_GRID_HEIGHT).foldl
        (alignCell sim (sim.boidAt i)) ((0 : Vec2), 0) = _ from
    foldl_pair_eq
      (fun rc : ℕ × ℕ => ∑ j in (sim.grid rc.1 rc.2).filter
        (influenceKeep sim (sim.boidAt i)), (sim.boidAt j).boid.speed)
      (fun rc : ℕ × ℕ => ((sim.grid rc.1 rc.2).filter
        (influenceKeep sim (sim.boidAt i))).card)
      _ ((0 : Vec2), 0)]
  have hG : (fun (b : ℕ) (rc : ℕ × ℕ) =>
      b + ((sim.grid rc.1 rc.2).filter (influenceKeep sim (sim.boidAt i))).card) =
      fun b rc => b +
        ∑ _j in (sim.grid rc.1 rc.2).filter (influenceKeep sim (sim.boidAt i)), 1 := by
    funext b rc
    rw [Finset.card_eq_sum_ones]
  rw [hG, cells_fold_filtered sim h _ _ _ (nodup_run_for_neighbor_cells _ _ _ _),
    cells_fold_filtered sim h _ _ _ (nodup_run_for_neighbor_cells _ _ _ _),
    ← Finset.card_eq_sum_ones]
  rfl

lemma cohCell_fold (sim : BoidsSim) (h : GridConsistent sim) (i : ℕ) :
    (run_for_neighbor_cells (sim.boidAt i).row (sim.boidAt i).col
        LOCATION_GRID_WIDTH LOCATION_GRID_HEIGHT).foldl
        (cohCell sim (sim.boidAt i)) ((0 : Vec2), 0) =
      (∑ j in influenceNeighbors sim i, (sim.boidAt j).boid.pos,
        (influenceNeighbors sim i).card) := by
  rw [show (run_for_neighbor_cells (sim.boidAt i).row (sim.boidAt i).col
        LOCATION_GRID_WIDTH LOCATION_GRID_HEIGHT).foldl
        (cohCell sim (sim.boidAt i)) ((0 : Vec2), 0) = _ from
    foldl_pair_eq
      (fun rc : ℕ × ℕ => ∑ j in (sim.grid rc.1 rc.2).filter
        (influenceKeep sim (sim.boidAt i)), (sim.boidAt j).boid.pos)
      (fun rc : ℕ × ℕ => ((sim.grid rc.1 rc.2).filter
        (influenceKeep sim (sim.boidAt i))).card)
      _ ((0 : Vec2), 0)]
  have hG : (fun (b : ℕ) (rc : ℕ × ℕ) =>
      b + ((sim.grid rc.1 rc.2).filter (influenceKeep sim (sim.boidAt i))).card) =
      fun b rc => b +
        ∑ _j in (sim.grid rc.1 rc.2).filter (influenceKeep sim (sim.boidAt i)), 1 := by
    funext b rc
    rw [Finset.card_eq_sum_ones]
  rw [hG, cells_fold_filtered sim h _ _ _ (nodup_run_for_neighbor_cells _ _ _ _),
    cells_fold_filtered sim h _ _ _ (nodup_run_for_neighbor_cells _ _ _ _),
    ← Finset.card_eq_sum_ones]
  rfl

lemma mem_influenceNeighbors_self (sim : BoidsSim) (i : ℕ)
    (hi : i < sim.boids.length) (hrow : (sim.boidAt i).row < LOCATION_GRID_HEIGHT)
    (hcol : (sim.boidAt i).col < LOCATION_GRID_WIDTH) :
    i ∈ influenceNeighbors sim i := by
  unfold influenceNeighbors
  rw [Finset.mem_filter, Finset.mem_range]
  refine ⟨hi, (mem_run_for_neighbor_cells _ _ _ _ _ _).mpr
    ⟨hrow, hcol, by omega, by omega, by omega, by omega⟩, ?_, rfl⟩
  have hd : distance_squared (sim.boidAt i).boid.pos (sim.boidAt i).boid.pos = 0 := by
    simp [distance_squared]
  rw [hd]
  norm_num [INFLUENCE_DISTANCE_SQUARED, INFLUENCE_DISTANCE]

lemma list_map_getD {α β : Type} (f : α → β) (l : List α) (i : ℕ)
    (hi : i < l.length) (d : β) (e : α) :
    (l.map f).getD i d = f (l.getD i e) := by
  rw [List.getD_eq_getElem l e hi, List.getD_eq_getElem _ d (by simpa using hi),
    List.getElem_map]

/-! ### Re-indexing lemmas -/

lemma reindexGo_snd :
    ∀ (l : List GridBoid) (g : LocationGrid) (k : ℕ),
      (reindexGo g k l).2 = l.map fun gb =>
        { gb with row := (cellOfPos gb.boid.pos).1, col := (cellOfPos gb.boid.pos).2 } := by
  intro l
  induction l with
  | nil => intro g k; rfl
  | cons gb rest ih =>
    intro g k
    simp only [reindexGo, List.map_cons]
    exact congrArg (List.cons _) (ih _ _)

lemma reindexOne_mem_ne (g : LocationGrid) (i : ℕ) (gb : GridBoid) (x r c : ℕ)
    (hx : x ≠ i) :
    x ∈ (reindexOne g i gb).1 r c ↔ x ∈ g r c := by
  unfold reindexOne updateCell
  dsimp only
  by_cases h1 : r = (cellOfPos gb.boid.pos).1 ∧ c = (cellOfPos gb.boid.pos).2
  · rw [if_pos h1, Finset.mem_insert]
    simp only [hx, false_or]
    by_cases h2 : (cellOfPos gb.boid.pos).1 = gb.row ∧ (cellOfPos gb.boid.pos).2 = gb.col
    · rw [if_pos h2, Finset.mem_erase]
      simp only [ne_eq, hx, not_false_iff, true_and]
      rw [h1.1, h1.2, h2.1, h2.2]
    · rw [if_neg h2, h1.1, h1.2]
  · rw [if_neg h1]
    by_cases h2 : r = gb.row ∧ c = gb.col
    · rw [if_pos h2, Finset.mem_erase]
      simp only [ne_eq, hx, not_false_iff, true_and]
      rw [h2.1, h2.2]
    · rw [if_neg h2]

lemma reindexOne_mem_self (g : LocationGrid) (i : ℕ) (gb : GridBoid) (r c : ℕ)
    (hpre : ∀ r' c', i ∈ g r' c' → r' = gb.row ∧ c' = gb.col) :
    i ∈ (reindexOne g i gb).1 r c ↔ (r, c) = cellOfPos gb.boid.pos := by
  unfold reindexOne updateCell
  dsimp only
  by_cases h1 : r = (cellOfPos gb.boid.pos).1 ∧ c = (cellOfPos gb.boid.pos).2
  · rw [if_pos h1]
    refine iff_of_true (Finset.mem_insert_self i _) (Prod.ext h1.1 h1.2)
  · rw [if_neg h1]
    have hne : ¬(r, c) = cellOfPos gb.boid.pos := by
      intro hcontra
      exact h1 ⟨congrArg Prod.fst hcontra, congrArg Prod.snd hcontra⟩
    simp only [hne, iff_false]
    by_cases h2 : r = gb.row ∧ c = gb.col
    · rw [if_pos h2]
      exact Finset.not_mem_erase i _
    · rw [if_neg h2]
      intro hmem
      exact h2 (hpre r c hmem)

lemma reindexGo_mem :
    ∀ (l : List GridBoid) (g : LocationGrid) (k x r c : ℕ),
      (x < k ∨ k + l.length ≤ x) →
      (x ∈ (reindexGo g k l).1 r c ↔ x ∈ g r c) := by
  intro l
  induction l with
  | nil => intro g k x r c _; rfl
  | cons gb rest ih =>
    intro g k x r c hx
    have hx' : x < k ∨ k + rest.length + 1 ≤ x := by
      simp only [List.length_cons] at hx
      omega
    simp only [reindexGo]
    rw [ih (reindexOne g k gb).1 (k + 1) x r c (by omega)]
    exact reindexOne_mem_ne g k gb x r c (by omega)

lemma reindexGo_mem_processed :
    ∀ (l : List GridBoid) (g : LocationGrid) (k m : ℕ) (hm : m < l.length) (r c : ℕ),
      (∀ r' c', (k + m) ∈ g r' c' →
        r' = (l.get ⟨m, hm⟩).row ∧ c' = (l.get ⟨m, hm⟩).col) →
      (k + m ∈ (reindexGo g k l).1 r c ↔
        (r, c) = cellOfPos (l.get ⟨m, hm⟩).boid.pos) := by
  intro l
  induction l with
  | nil => intro g k m hm; exact absurd hm (by simp)
  | cons gb rest ih =>
    intro g k m hm r c hpre
    cases m with
    | zero =>
      simp only [reindexGo, List.get_cons_zero] at hpre ⊢
      rw [reindexGo_mem rest (reindexOne g k gb).1 (k + 1) (k + 0) r c (Or.inl (by omega))]
      exact reindexOne_mem_self g k gb r c (by simpa using hpre)
    | succ n =>
      simp only [reindexGo, List.get_cons_succ] at hpre ⊢
      have hn : n < rest.length := by simpa using hm
      have hidx : k + (n + 1) = (k + 1) + n := by omega
      rw [hidx] at hpre ⊢
      exact ih (reindexOne g k gb).1 (k + 1) n hn r c
        (fun r' c' hmem => hpre r' c'
          ((reindexOne_mem_ne g k gb _ r' c' (by omega)).mp hmem))

/-! ### Concrete configurations used to exercise the theorems -/

/-- A boid at the origin of cell `(0, 0)`. -/
def exBoid0 : GridBoid := ⟨⟨(0, 0), (2, 0), 0⟩, 0, 0⟩

/-- A boid at `(3, 4)` — squared distance `25` from `exBoid0` — in cell `(0, 0)`. -/
def exBoid1 : GridBoid := ⟨⟨(3, 4), (0, 1), 0⟩, 0, 0⟩

/-- A grid populating only cell `(0, 0)` with indices `0` and `1`. -/
def exGrid00 : LocationGrid := fun r c => if r = 0 ∧ c = 0 then {0, 1} else ∅

/-- Two close boids, no leader. -/
def exSim : BoidsSim := ⟨[exBoid0, exBoid1], exGrid00, none⟩

/-- Two close boids, boid `0` leading. -/
def exSimLeader : BoidsSim := ⟨[exBoid0, exBoid1], exGrid00, some 0⟩

/-- A boid recorded in cell `(0, 0)` whose position `(80, 80)` now falls in
cell `(1, 1)`. -/
def exBoidMove : GridBoid := ⟨⟨(80, 80), (0, 0), 0⟩, 0, 0⟩

/-- A boid staying in cell `(0, 0)`. -/
def exBoidStay : GridBoid := ⟨⟨(10, 10), (0, 0), 1⟩, 0, 0⟩

/-- The single-agent-move scenario of the re-indexing claim. -/
def exSimMove : BoidsSim := ⟨[exBoidMove, exBoidStay], exGrid00, none⟩

lemma exGrid00_mem (r c j : ℕ) : j ∈ exGrid00 r c ↔ (r = 0 ∧ c = 0 ∧ (j = 0 ∨ j = 1)) := by
  unfold exGrid00
  by_cases h : r = 0 ∧ c = 0
  · rw [if_pos h]
    simp [Finset.mem_insert, Finset.mem_singleton, h.1, h.2]
  · rw [if_neg h]
    simp only [Finset.not_mem_empty, false_iff]
    rintro ⟨hr, hc, -⟩
    exact h ⟨hr, hc⟩

lemma exSim_consistent : GridConsistent exSim := by
  constructor
  · intro r c j hj
    obtain ⟨hr, hc, hj01⟩ := (exGrid00_mem r c j).mp hj
    subst hr; subst hc
    rcases hj01 with h | h <;> subst h <;> exact ⟨by decide, rfl, rfl⟩
  · intro j hj
    have h2 : j < 2 := hj
    interval_cases j <;> decide

lemma exSimMove_consistent : GridConsistent exSimMove := by
  constructor
  · intro r c j hj
    obtain ⟨hr, hc, hj01⟩ := (exGrid00_mem r c j).mp hj
    subst hr; subst hc
    rcases hj01 with h | h <;> subst h <;> exact ⟨by decide, rfl, rfl⟩
  · intro j hj
    have h2 : j < 2 := hj
    interval_cases j <;> decide

/-! ### The claims -/

lemma LOCATION_GRID_HEIGHT_eq : LOCATION_GRID_HEIGHT = 14 := by
  unfold LOCATION_GRID_HEIGHT ratToUsize SCREEN_HEIGHT INFLUENCE_DISTANCE USIZE_MAX
  rw [if_neg (by norm_num)]
  rw [show ⌊(1000 : ℚ) / 75⌋ = 13 from by rw [Int.floor_eq_iff]; norm_num]
  decide

lemma LOCATION_GRID_WIDTH_eq : LOCATION_GRID_WIDTH = 19 := by
  unfold LOCATION_GRID_WIDTH ratToUsize SCREEN_WIDTH INFLUENCE_DISTANCE USIZE_MAX
  rw [if_neg (by norm_num)]
  rw [show ⌊(1400 : ℚ) / 75⌋ = 18 from by rw [Int.floor_eq_iff]; norm_num]
  decide

lemma vscale_zero (a : ℚ) : vscale a 0 = 0 := by
  unfold vscale
  simp

/-- Claim C2: for every fixed configuration of agents and grid, the separation
computation with the pairwise-displacement cache (reusing the negation of a
stored displacement for the reverse pair) returns, for every agent, a result
numerically identical to the naive computation that performs every vector
subtraction directly without a cache. -/
theorem claim_C2_cache_refinement (sim : BoidsSim) :
    calc_separation_directions sim = calc_separation_directions_nocache sim :=
  sepGo_eq_nocache sim sim.boids 0 [] cacheOK_nil

instance (a b : F32.Boid32) : Decidable (F32.bitwiseEq a b) := by
  unfold F32.bitwiseEq
  infer_instance

/-- Concrete binary32 pattern of `-0.0`. -/
def exBitNegZero : F32.Boid32 := ⟨2 ^ 31, 0, 0, 0, 0⟩

/-- Concrete binary32 pattern of `+0.0`. -/
def exBitPosZero : F32.Boid32 := ⟨0, 0, 0, 0, 0⟩

/-- Concrete binary32 pattern of the canonical quiet NaN (`0x7FC00000`). -/
def exBitNaN : F32.Boid32 := ⟨2143289344, 0, 0, 0, 0⟩

/-- Counterexample to claim C3 as stated: agent equality is `f32` (IEEE-754)
equality, not bitwise equality — an agent whose position `x` is `-0.0` equals
one whose position `x` is `+0.0` although their bits differ, and an agent with
a NaN component is bitwise identical to itself yet not equal to itself. -/
theorem claim_C3_counterexample :
    (F32.beq exBitNegZero exBitPosZero = true ∧
      ¬F32.bitwiseEq exBitNegZero exBitPosZero) ∧
    (F32.bitwiseEq exBitNaN exBitNaN ∧ F32.beq exBitNaN exBitNaN = false) := by
  decide

/-- Claim C3, amended: two agents are equal iff neither carries a NaN
position/velocity component and their position and velocity bit patterns agree
after normalizing `-0.0` to `+0.0` (so `+0.0 = -0.0`, a NaN agent is not equal
to itself, and the color is not compared). -/
theorem claim_C3_boid_equality (a b : F32.Boid32) :
    F32.beq a b = true ↔
      (F32.hasNaN a = false ∧ F32.hasNaN b = false ∧ F32.key a = F32.key b) :=
  F32.beq_iff a b

/-- Claim C4: `Boid::add_dir` adds the direction, clamps each velocity axis
independently to `[-MAX_BOID_VELOCITY, MAX_BOID_VELOCITY]`, then rescales to
exactly `MIN_BOID_VELOCITY` when the clamped magnitude is below it — leaving a
zero velocity at zero — so the post-state magnitude is never below
`MIN_BOID_VELOCITY` except for the zero vector. -/
theorem claim_C4_min_speed (s d : ℝ × ℝ) :
    (RealVel.clampedVel s d = (0, 0) ∧ RealVel.add_dir s d = (0, 0)) ∨
    (RealVel.vlen (RealVel.clampedVel s d) < RealVel.MIN_BOID_VELOCITY ∧
      RealVel.vlen (RealVel.add_dir s d) = RealVel.MIN_BOID_VELOCITY) ∨
    (RealVel.add_dir s d = RealVel.clampedVel s d ∧
      RealVel.MIN_BOID_VELOCITY ≤ RealVel.vlen (RealVel.add_dir s d)) := by
  by_cases hz : RealVel.clampedVel s d = (0, 0)
  · left
    refine ⟨hz, ?_⟩
    unfold RealVel.add_dir
    dsimp only
    rw [hz]
    have h0 : RealVel.vlen ((0 : ℝ), (0 : ℝ)) = 0 := (RealVel.vlen_eq_zero_iff _).mpr rfl
    rw [if_pos (by rw [h0]; norm_num [RealVel.MIN_BOID_VELOCITY])]
    unfold RealVel.normalize_or_zero
    rw [if_pos rfl]
    simp
  · by_cases hlt : RealVel.vlen (RealVel.clampedVel s d) < RealVel.MIN_BOID_VELOCITY
    · right; left
      refine ⟨hlt, ?_⟩
      unfold RealVel.add_dir
      dsimp only
      rw [if_pos hlt, RealVel.vlen_min_scale, RealVel.vlen_normalize _ hz, mul_one]
    · right; right
      unfold RealVel.add_dir
      dsimp only
      rw [if_neg hlt]
      exact ⟨rfl, not_lt.mp hlt⟩

/-- Claim C5: after `Boid::go_forward` the position's `x` lies in
`[0, SCREEN_WIDTH)` and its `y` in `[0, SCREEN_HEIGHT)`, whatever the previous
position and velocity. -/
theorem claim_C5_wraparound (b : Boid) :
    0 ≤ b.go_forward.pos.1 ∧ b.go_forward.pos.1 < SCREEN_WIDTH ∧
      0 ≤ b.go_forward.pos.2 ∧ b.go_forward.pos.2 < SCREEN_HEIGHT := by
  unfold Boid.go_forward
  dsimp only
  obtain ⟨h1, h2⟩ := rem_euclid_bounds (b.pos + b.speed).1 SCREEN_WIDTH
    (by norm_num [SCREEN_WIDTH])
  obtain ⟨h3, h4⟩ := rem_euclid_bounds (b.pos + b.speed).2 SCREEN_HEIGHT
    (by norm_num [SCREEN_HEIGHT])
  exact ⟨h1, h2, h3, h4⟩

/-- Claim C8: the neighborhood iteration visits exactly the in-bounds cells of
the 3×3 block centered on the given cell (center included, no wraparound), and
at corner `(0, 0)` of a grid with at least two rows and columns it visits
exactly 4 cells. -/
theorem claim_C8_neighborhood :
    (∀ row col width height r c : ℕ,
      (r, c) ∈ run_for_neighbor_cells row col width height ↔
        (r < height ∧ c < width ∧
          row ≤ r + 1 ∧ r ≤ row + 1 ∧ col ≤ c + 1 ∧ c ≤ col + 1)) ∧
    (∀ width height : ℕ, 2 ≤ width → 2 ≤ height →
      (run_for_neighbor_cells 0 0 width height).length = 4) := by
  refine ⟨mem_run_for_neighbor_cells, ?_⟩
  intro width height hw hh
  have hnd := nodup_run_for_neighbor_cells 0 0 width height
  rw [← List.toFinset_card_of_nodup hnd]
  have hset : (run_for_neighbor_cells 0 0 width height).toFinset =
      ({(0, 0), (0, 1), (1, 0), (1, 1)} : Finset (ℕ × ℕ)) := by
    ext rc
    obtain ⟨a, b⟩ := rc
    rw [List.mem_toFinset, mem_run_for_neighbor_cells]
    simp only [Finset.mem_insert, Finset.mem_singleton, Prod.mk.injEq]
    omega
  rw [hset]
  decide

/-- Claim C9: with a leader set, every agent's leader-following contribution is
`LEADER_FACTOR * (position[leader] - position[i])` — zero for the leader
itself — and with no leader it is zero for every agent. -/
theorem claim_C9_leader (sim : BoidsSim) (i idx : ℕ) (hi : i < sim.boids.length) :
    (sim.leader_idx = some idx →
      (calc_leader_directions sim).getD i 0 =
        vscale LEADER_FACTOR ((sim.boidAt idx).boid.pos - (sim.boidAt i).boid.pos) ∧
      (i = idx → (calc_leader_directions sim).getD i 0 = 0)) ∧
    (sim.leader_idx = none → (calc_leader_directions sim).getD i 0 = 0) := by
  constructor
  · intro hidx
    unfold calc_leader_directions
    rw [hidx]
    dsimp only
    have hget : ((List.range sim.boids.length).map fun j =>
        vscale LEADER_FACTOR ((sim.boidAt idx).boid.pos - (sim.boidAt j).boid.pos)).getD i 0 =
        vscale LEADER_FACTOR ((sim.boidAt idx).boid.pos - (sim.boidAt i).boid.pos) := by
      rw [List.getD_eq_getElem _ _ (by simpa using hi), List.getElem_map, List.getElem_range]
    refine ⟨hget, ?_⟩
    intro hii
    subst hii
    rw [hget, sub_self, vscale_zero]
  · intro hnone
    unfold calc_leader_directions
    rw [hnone]
    dsimp only
    rw [List.getD_eq_getElem _ _ (by simpa using hi), List.getElem_replicate]

/-- Witness for claim C9 at a concrete two-boid configuration with boid `0`
leading: the leader's own contribution evaluates to the zero vector. -/
theorem claim_C9_leader_witness :
    0 < exSimLeader.boids.length ∧ exSimLeader.leader_idx = some 0 ∧
      (calc_leader_directions exSimLeader).getD 0 0 = 0 :=
  ⟨by decide, rfl, ((claim_C9_leader exSimLeader 0 0 (by decide)).1 rfl).2 rfl⟩

lemma boids_map_getD (sim : BoidsSim) {β : Type} (f : GridBoid → β) (i : ℕ)
    (hi : i < sim.boids.length) (d : β) :
    (sim.boids.map f).getD i d = f (sim.boidAt i) :=
  list_map_getD f sim.boids i hi d default

/-- Counterexample to claim C1 as stated: with two agents at positions
`(0, 0)` and `(3, 4)` (squared distance `25`) in cell `(0, 0)`, agent `0`'s
computed separation direction is `(-3/10, -2/5)`, not
`-SEPARATION_FACTOR * ((0,0) - (3,4)) = (3/10, 2/5)` — the claim's formula has
the displacement sign reversed. -/
lemma exSim_sepNeighbors : sepNeighbors exSim 0 = {1} := by
  unfold sepNeighbors
  ext j
  simp only [Finset.mem_filter, Finset.mem_range, Finset.mem_singleton]
  constructor
  · rintro ⟨hj2, hne, -, -⟩
    have hj2' : j < 2 := hj2
    omega
  · rintro rfl
    refine ⟨by decide, by decide, ?_, ?_⟩
    · have e0 : exSim.boidAt 0 = exBoid0 := rfl
      have e1 : exSim.boidAt 1 = exBoid1 := rfl
      rw [e0, e1]
      apply (mem_run_for_neighbor_cells _ _ _ _ _ _).mpr
      rw [LOCATION_GRID_HEIGHT_eq, LOCATION_GRID_WIDTH_eq]
      refine ⟨by decide, by decide, by decide, by decide, by decide, by decide⟩
    · have e0 : exSim.boidAt 0 = exBoid0 := rfl
      have e1 : exSim.boidAt 1 = exBoid1 := rfl
      rw [e0, e1]
      norm_num [distance_squared, exBoid0, exBoid1, STEERING_DISTANCE_SQUARED,
        STEERING_DISTANCE]

theorem claim_C1_counterexample :
    (calc_separation_directions exSim).getD 0 0 ≠
      vscale (-SEPARATION_FACTOR)
        (∑ j in sepNeighbors exSim 0,
          ((exSim.boidAt 0).boid.pos - (exSim.boidAt j).boid.pos)) := by
  have h1 : (calc_separation_directions exSim).getD 0 0 =
      vscale (-SEPARATION_FACTOR)
        (∑ j in sepNeighbors exSim 0,
          ((exSim.boidAt j).boid.pos - (exSim.boidAt 0).boid.pos)) := by
    unfold calc_separation_directions
    rw [sepGo_eq_nocache exSim exSim.boids 0 [] cacheOK_nil,
      sepGoNoCache_getD exSim exSim.boids 0 0 (by decide), Nat.zero_add]
    congr 1
    exact sepBoidNoCache_sum exSim exSim_consistent 0
  rw [h1, exSim_sepNeighbors, Finset.sum_singleton, Finset.sum_singleton]
  have e0 : exSim.boidAt 0 = exBoid0 := rfl
  have e1 : exSim.boidAt 1 = exBoid1 := rfl
  rw [e0, e1]
  unfold exBoid0 exBoid1 vscale SEPARATION_FACTOR
  intro hcontra
  have hfst := congrArg Prod.fst hcontra
  norm_num at hfst

/-- Claim C1, amended: for every agent `i`, the separation contribution equals
`-SEPARATION_FACTOR` times the sum of `(position[j] - position[i])` —
equivalently `+SEPARATION_FACTOR` times the sum of
`(position[i] - position[j])` — over all agents `j ≠ i` in the 3×3 grid
neighborhood of `i` with squared distance at most
`STEERING_DISTANCE_SQUARED`. -/
theorem claim_C1_separation_sum (sim : BoidsSim) (h : GridConsistent sim) (i : ℕ)
    (hi : i < sim.boids.length) :
    (calc_separation_directions sim).getD i 0 =
      vscale (-SEPARATION_FACTOR)
        (∑ j in sepNeighbors sim i,
          ((sim.boidAt j).boid.pos - (sim.boidAt i).boid.pos)) := by
  unfold calc_separation_directions
  rw [sepGo_eq_nocache sim sim.boids 0 [] cacheOK_nil]
  rw [sepGoNoCache_getD sim sim.boids 0 i hi]
  rw [Nat.zero_add]
  congr 1
  exact sepBoidNoCache_sum sim h i

/-- Witness for the amended claim C1 at the two-agent configuration. -/
theorem claim_C1_separation_sum_witness :
    GridConsistent exSim ∧ 0 < exSim.boids.length ∧
      (calc_separation_directions exSim).getD 0 0 =
        vscale (-SEPARATION_FACTOR)
          (∑ j in sepNeighbors exSim 0,
            ((exSim.boidAt j).boid.pos - (exSim.boidAt 0).boid.pos)) :=
  ⟨exSim_consistent, by decide,
    claim_C1_separation_sum exSim exSim_consistent 0 (by decide)⟩

/-- Claim C7: alignment averages the velocities of the same-color agents in the
3×3 neighborhood (agent `i` included) within the influence radius and
contributes `ALIGNMENT_FACTOR * (average - velocity[i])`; cohesion is the same
over positions with `COHESION_FACTOR`; and when only the agent itself qualifies
(count 1) both contributions are zero. -/
theorem claim_C7_alignment_cohesion (sim : BoidsSim) (h : GridConsistent sim)
    (i : ℕ) (hi : i < sim.boids.length)
    (hrow : (sim.boidAt i).row < LOCATION_GRID_HEIGHT)
    (hcol : (sim.boidAt i).col < LOCATION_GRID_WIDTH) :
    i ∈ influenceNeighbors sim i ∧
    (calc_alignment_directions sim).getD i 0 =
      (if (influenceNeighbors sim i).card = 1 then 0
       else vscale ALIGNMENT_FACTOR
         (vscale (((influenceNeighbors sim i).card : ℚ))⁻¹
            (∑ j in influenceNeighbors sim i, (sim.boidAt j).boid.speed) -
          (sim.boidAt i).boid.speed)) ∧
    (calc_cohesion_directions sim).getD i 0 =
      (if (influenceNeighbors sim i).card = 1 then 0
       else vscale COHESION_FACTOR
         (vscale (((influenceNeighbors sim i).card : ℚ))⁻¹
            (∑ j in influenceNeighbors sim i, (sim.boidAt j).boid.pos) -
          (sim.boidAt i).boid.pos)) := by
  refine ⟨mem_influenceNeighbors_self sim i hi hrow hcol, ?_, ?_⟩
  · unfold calc_alignment_directions
    rw [boids_map_getD sim _ i hi 0]
    dsimp only
    rw [alignCell_fold sim h i]
  · unfold calc_cohesion_directions
    rw [boids_map_getD sim _ i hi 0]
    dsimp only
    rw [cohCell_fold sim h i]

/-- Witness for claim C7: in the two-agent configuration agent `0` belongs to
its own alignment/cohesion group. -/
theorem claim_C7_witness :
    GridConsistent exSim ∧ 0 < exSim.boids.length ∧
      (exSim.boidAt 0).row < LOCATION_GRID_HEIGHT ∧
      (exSim.boidAt 0).col < LOCATION_GRID_WIDTH ∧
      0 ∈ influenceNeighbors exSim 0 :=
  ⟨exSim_consistent, by decide,
    by rw [LOCATION_GRID_HEIGHT_eq]; decide,
    by rw [LOCATION_GRID_WIDTH_eq]; decide,
    (claim_C7_alignment_cohesion exSim exSim_consistent 0 (by decide)
      (by rw [LOCATION_GRID_HEIGHT_eq]; decide)
      (by rw [LOCATION_GRID_WIDTH_eq]; decide)).1⟩

lemma ratToUsize_mono {q b : ℚ} (h : q ≤ b) : ratToUsize q ≤ ratToUsize b := by
  unfold ratToUsize
  by_cases hq : q < 0
  · rw [if_pos hq]
    exact Nat.zero_le _
  · rw [if_neg hq, if_neg (by push_neg at hq ⊢; linarith)]
    exact min_le_min (Int.toNat_le_toNat (Int.floor_le_floor h)) le_rfl

/-- Claim C10: for positions within `[0, SCREEN_WIDTH] × [0, SCREEN_HEIGHT]`,
re-indexing's cast cell coordinates are strictly below `LOCATION_GRID_HEIGHT`
and `LOCATION_GRID_WIDTH` (each the truncated quotient plus one), and every
cell the neighborhood iteration visits from such a cell is in bounds, so the
grid accesses cannot go out of range. -/
theorem claim_C10_grid_bounds (p : Vec2) (h1 : 0 ≤ p.1) (h2 : p.1 ≤ SCREEN_WIDTH)
    (h3 : 0 ≤ p.2) (h4 : p.2 ≤ SCREEN_HEIGHT) :
    (cellOfPos p).1 < LOCATION_GRID_HEIGHT ∧ (cellOfPos p).2 < LOCATION_GRID_WIDTH ∧
    ∀ r c, (r, c) ∈ run_for_neighbor_cells (cellOfPos p).1 (cellOfPos p).2
        LOCATION_GRID_WIDTH LOCATION_GRID_HEIGHT →
      r < LOCATION_GRID_HEIGHT ∧ c < LOCATION_GRID_WIDTH := by
  have hpos : (0 : ℚ) < INFLUENCE_DISTANCE := by norm_num [INFLUENCE_DISTANCE]
  have hrow : (cellOfPos p).1 ≤ ratToUsize (SCREEN_HEIGHT / INFLUENCE_DISTANCE) :=
    ratToUsize_mono ((div_le_div_right hpos).mpr h4)
  have hcol : (cellOfPos p).2 ≤ ratToUsize (SCREEN_WIDTH / INFLUENCE_DISTANCE) :=
    ratToUsize_mono ((div_le_div_right hpos).mpr h2)
  refine ⟨?_, ?_, ?_⟩
  · unfold LOCATION_GRID_HEIGHT
    omega
  · unfold LOCATION_GRID_WIDTH
    omega
  · intro r c hmem
    obtain ⟨ha, hb, -⟩ := (mem_run_for_neighbor_cells _ _ _ _ _ _).mp hmem
    exact ⟨ha, hb⟩

/-- Witness for claim C10 at position `(700, 500)`: its cell is in bounds. -/
theorem claim_C10_grid_bounds_witness :
    (0 : ℚ) ≤ 700 ∧ (700 : ℚ) ≤ SCREEN_WIDTH ∧ (0 : ℚ) ≤ 500 ∧
      (500 : ℚ) ≤ SCREEN_HEIGHT ∧
      (cellOfPos (700, 500)).1 < LOCATION_GRID_HEIGHT ∧
      (cellOfPos (700, 500)).2 < LOCATION_GRID_WIDTH :=
  ⟨by norm_num, by norm_num [SCREEN_WIDTH], by norm_num, by norm_num [SCREEN_HEIGHT],
    (claim_C10_grid_bounds (700, 500) (by norm_num) (by norm_num [SCREEN_WIDTH])
      (by norm_num) (by norm_num [SCREEN_HEIGHT])).1,
    (claim_C10_grid_bounds (700, 500) (by norm_num) (by norm_num [SCREEN_WIDTH])
      (by norm_num) (by norm_num [SCREEN_HEIGHT])).2.1⟩

lemma reindex_boids_len (sim : BoidsSim) :
    (recalculate_boid_indices sim).boids.length = sim.boids.length := by
  unfold recalculate_boid_indices
  dsimp only
  rw [reindexGo_snd]
  exact List.length_map _ _

lemma reindex_boidAt (sim : BoidsSim) (i : ℕ) (hi : i < sim.boids.length) :
    (recalculate_boid_indices sim).boidAt i =
      { sim.boidAt i with
          row := (cellOfPos (sim.boidAt i).boid.pos).1
          col := (cellOfPos (sim.boidAt i).boid.pos).2 } := by
  unfold recalculate_boid_indices BoidsSim.boidAt
  dsimp only
  rw [reindexGo_snd]
  exact list_map_getD _ _ i hi default default

lemma reindex_grid_mem (sim : BoidsSim) (i : ℕ) (hi : i < sim.boids.length)
    (hpre : ∀ r c, i ∈ sim.grid r c → r = (sim.boidAt i).row ∧ c = (sim.boidAt i).col)
    (r c : ℕ) :
    i ∈ (recalculate_boid_indices sim).grid r c ↔
      (r, c) = cellOfPos (sim.boidAt i).boid.pos := by
  have hget : sim.boids.get ⟨i, hi⟩ = sim.boidAt i := by
    unfold BoidsSim.boidAt
    rw [List.getD_eq_getElem sim.boids default hi]
    exact List.get_eq_getElem sim.boids ⟨i, hi⟩
  have h0 := reindexGo_mem_processed sim.boids sim.grid 0 i hi r c
    (fun r' c' hm => by
      rw [hget]
      exact hpre r' c' (by simpa using hm))
  rw [hget] at h0
  unfold recalculate_boid_indices
  dsimp only
  simpa using h0

lemma reindex_grid_mem_ge (sim : BoidsSim) (x r c : ℕ)
    (hx : sim.boids.length ≤ x) :
    x ∈ (recalculate_boid_indices sim).grid r c ↔ x ∈ sim.grid r c := by
  unfold recalculate_boid_indices
  dsimp only
  exact reindexGo_mem sim.boids sim.grid 0 x r c (Or.inr (by omega))

lemma cellOfPos_eq_floor (p : Vec2) (h1 : 0 ≤ p.1) (h2 : p.1 ≤ SCREEN_WIDTH)
    (h3 : 0 ≤ p.2) (h4 : p.2 ≤ SCREEN_HEIGHT) :
    cellOfPos p =
      (⌊p.2 / INFLUENCE_DISTANCE⌋.toNat, ⌊p.1 / INFLUENCE_DISTANCE⌋.toNat) := by
  have hI : (0 : ℚ) < INFLUENCE_DISTANCE := by norm_num [INFLUENCE_DISTANCE]
  have hy : ⌊p.2 / INFLUENCE_DISTANCE⌋ ≤ 13 := by
    have hle : ⌊p.2 / INFLUENCE_DISTANCE⌋ ≤ ⌊SCREEN_HEIGHT / INFLUENCE_DISTANCE⌋ :=
      Int.floor_le_floor ((div_le_div_right hI).mpr h4)
    have h13 : ⌊SCREEN_HEIGHT / INFLUENCE_DISTANCE⌋ = 13 := by
      unfold SCREEN_HEIGHT INFLUENCE_DISTANCE
      rw [Int.floor_eq_iff]
      norm_num
    omega
  have hx : ⌊p.1 / INFLUENCE_DISTANCE⌋ ≤ 18 := by
    have hle : ⌊p.1 / INFLUENCE_DISTANCE⌋ ≤ ⌊SCREEN_WIDTH / INFLUENCE_DISTANCE⌋ :=
      Int.floor_le_floor ((div_le_div_right hI).mpr h2)
    have h18 : ⌊SCREEN_WIDTH / INFLUENCE_DISTANCE⌋ = 18 := by
      unfold SCREEN_WIDTH INFLUENCE_DISTANCE
      rw [Int.floor_eq_iff]
      norm_num
    omega
  have hyN : ⌊p.2 / INFLUENCE_DISTANCE⌋.toNat ≤ USIZE_MAX := by
    have hM : (13 : ℕ) ≤ USIZE_MAX := by norm_num [USIZE_MAX]
    omega
  have hxN : ⌊p.1 / INFLUENCE_DISTANCE⌋.toNat ≤ USIZE_MAX := by
    have hM : (18 : ℕ) ≤ USIZE_MAX := by norm_num [USIZE_MAX]
    omega
  unfold cellOfPos ratToUsize
  rw [if_neg (not_lt.mpr (div_nonneg h3 hI.le)),
    if_neg (not_lt.mpr (div_nonneg h1 hI.le)),
    min_eq_left hyN, min_eq_left hxN]

/-- Claim C6: after `recalculate_boid_indices` every agent records the cell
`(⌊y / INFLUENCE_DISTANCE⌋, ⌊x / INFLUENCE_DISTANCE⌋)` of its position and
appears in exactly that one grid cell — for every re-indexing from a
consistent state, however many agents changed cells; and in the particular
scenario where a single agent `k` has moved from cell `(0, 0)` to cell
`(1, 1)`, re-indexing removes `k` from `(0, 0)`'s set, inserts it into
`(1, 1)`'s set, and leaves every other cell unchanged. -/
theorem claim_C6_reindex (sim : BoidsSim)
    (hcons : GridConsistent sim)
    (hpos : ∀ j, j < sim.boids.length →
      0 ≤ (sim.boidAt j).boid.pos.1 ∧ (sim.boidAt j).boid.pos.1 ≤ SCREEN_WIDTH ∧
        0 ≤ (sim.boidAt j).boid.pos.2 ∧ (sim.boidAt j).boid.pos.2 ≤ SCREEN_HEIGHT) :
    (∀ i, i < sim.boids.length →
      (((recalculate_boid_indices sim).boidAt i).row,
        ((recalculate_boid_indices sim).boidAt i).col) =
        (⌊(sim.boidAt i).boid.pos.2 / INFLUENCE_DISTANCE⌋.toNat,
          ⌊(sim.boidAt i).boid.pos.1 / INFLUENCE_DISTANCE⌋.toNat)) ∧
    (∀ i, i < sim.boids.length → ∀ r c,
      (i ∈ (recalculate_boid_indices sim).grid r c ↔
        (r, c) = cellOfPos (sim.boidAt i).boid.pos)) ∧
    (∀ k, k < sim.boids.length →
      (∀ j, j < sim.boids.length → j ≠ k →
        cellOfPos (sim.boidAt j).boid.pos = ((sim.boidAt j).row, (sim.boidAt j).col)) →
      ((sim.boidAt k).row, (sim.boidAt k).col) = (0, 0) →
      cellOfPos (sim.boidAt k).boid.pos = (1, 1) →
      (recalculate_boid_indices sim).grid 0 0 = (sim.grid 0 0).erase k ∧
      (recalculate_boid_indices sim).grid 1 1 = insert k (sim.grid 1 1) ∧
      (∀ r c, (r, c) ≠ (0, 0) → (r, c) ≠ (1, 1) →
        (recalculate_boid_indices sim).grid r c = sim.grid r c)) := by
  have hpre : ∀ i, i < sim.boids.length → ∀ r c, i ∈ sim.grid r c →
      r = (sim.boidAt i).row ∧ c = (sim.boidAt i).col := by
    intro i _ r c hm
    obtain ⟨-, hr, hc⟩ := hcons.1 r c i hm
    exact ⟨hr.symm, hc.symm⟩
  have hmem : ∀ i, i < sim.boids.length → ∀ r c,
      (i ∈ (recalculate_boid_indices sim).grid r c ↔
        (r, c) = cellOfPos (sim.boidAt i).boid.pos) :=
    fun i hi r c => reindex_grid_mem sim i hi (hpre i hi) r c
  refine ⟨?_, hmem, ?_⟩
  · intro i hi
    rw [reindex_boidAt sim i hi]
    dsimp only
    obtain ⟨p1, p2, p3, p4⟩ := hpos i hi
    rw [cellOfPos_eq_floor _ p1 p2 p3 p4]
  intro k hk hothers hkold hknew
  refine ⟨?_, ?_, ?_⟩
  · ext x
    rw [Finset.mem_erase]
    by_cases hx : x < sim.boids.length
    · rw [hmem x hx 0 0]
      by_cases hxk : x = k
      · subst hxk
        simp [hknew, Prod.ext_iff]
      · rw [hothers x hx hxk]
        constructor
        · intro heq
          refine ⟨hxk, ?_⟩
          have hr : (sim.boidAt x).row = 0 := (congrArg Prod.fst heq).symm
          have hc : (sim.boidAt x).col = 0 := (congrArg Prod.snd heq).symm
          have hin := hcons.2 x hx
          rw [hr, hc] at hin
          exact hin
        · rintro ⟨-, hxin⟩
          obtain ⟨-, hr, hc⟩ := hcons.1 0 0 x hxin
          rw [hr, hc]
    · rw [reindex_grid_mem_ge sim x 0 0 (by omega)]
      have hxk : x ≠ k := by omega
      simp [hxk]
  · ext x
    rw [Finset.mem_insert]
    by_cases hx : x < sim.boids.length
    · rw [hmem x hx 1 1]
      by_cases hxk : x = k
      · subst hxk
        simp [hknew]
      · rw [hothers x hx hxk]
        constructor
        · intro heq
          right
          have hr : (sim.boidAt x).row = 1 := (congrArg Prod.fst heq).symm
          have hc : (sim.boidAt x).col = 1 := (congrArg Prod.snd heq).symm
          have hin := hcons.2 x hx
          rw [hr, hc] at hin
          exact hin
        · rintro (heq | hxin)
          · exact absurd heq hxk
          · obtain ⟨-, hr, hc⟩ := hcons.1 1 1 x hxin
            rw [hr, hc]
    · rw [reindex_grid_mem_ge sim x 1 1 (by omega)]
      have hxk : x ≠ k := by omega
      simp [hxk]
  · intro r c hne00 hne11
    ext x
    by_cases hx : x < sim.boids.length
    · rw [hmem x hx r c]
      by_cases hxk : x = k
      · subst hxk
        rw [hknew]
        constructor
        · intro heq
          exact absurd heq hne11
        · intro hxin
          obtain ⟨-, hr, hc⟩ := hcons.1 r c x hxin
          exfalso
          apply hne00
          have h0 : (sim.boidAt x).row = 0 := congrArg Prod.fst hkold
          have h1 : (sim.boidAt x).col = 0 := congrArg Prod.snd hkold
          rw [← hr, ← hc, h0, h1]
      · rw [hothers x hx hxk]
        constructor
        · intro heq
          have hr : (sim.boidAt x).row = r := (congrArg Prod.fst heq).symm
          have hc : (sim.boidAt x).col = c := (congrArg Prod.snd heq).symm
          have hin := hcons.2 x hx
          rw [hr, hc] at hin
          exact hin
        · intro hxin
          obtain ⟨-, hr, hc⟩ := hcons.1 r c x hxin
          rw [hr, hc]
    · exact reindex_grid_mem_ge sim x r c (by omega)

lemma cellOf_ten : cellOfPos ((10 : ℚ), (10 : ℚ)) = (0, 0) := by
  unfold cellOfPos
  dsimp only
  unfold ratToUsize INFLUENCE_DISTANCE
  rw [if_neg (by norm_num)]
  rw [show ⌊(10 : ℚ) / 75⌋ = 0 from by rw [Int.floor_eq_iff]; norm_num]
  decide

lemma cellOf_eighty : cellOfPos ((80 : ℚ), (80 : ℚ)) = (1, 1) := by
  unfold cellOfPos
  dsimp only
  unfold ratToUsize INFLUENCE_DISTANCE
  rw [if_neg (by norm_num)]
  rw [show ⌊(80 : ℚ) / 75⌋ = 1 from by rw [Int.floor_eq_iff]; norm_num]
  decide

/-- Witness for claim C6: in the scenario where agent `0` moved from cell
`(0, 0)` to `(1, 1)` while agent `1` stayed, re-indexing performs exactly the
erase/insert pair. -/
theorem claim_C6_reindex_witness :
    GridConsistent exSimMove ∧ 0 < exSimMove.boids.length ∧
      cellOfPos (exSimMove.boidAt 0).boid.pos = (1, 1) ∧
      (recalculate_boid_indices exSimMove).grid 0 0 = (exSimMove.grid 0 0).erase 0 ∧
      (recalculate_boid_indices exSimMove).grid 1 1 = insert 0 (exSimMove.grid 1 1) := by
  have hpos : ∀ j, j < exSimMove.boids.length →
      0 ≤ (exSimMove.boidAt j).boid.pos.1 ∧
        (exSimMove.boidAt j).boid.pos.1 ≤ SCREEN_WIDTH ∧
        0 ≤ (exSimMove.boidAt j).boid.pos.2 ∧
        (exSimMove.boidAt j).boid.pos.2 ≤ SCREEN_HEIGHT := by
    intro j hj
    have hj2 : j < 2 := hj
    interval_cases j
    · norm_num [show exSimMove.boidAt 0 = exBoidMove from rfl, exBoidMove,
        SCREEN_WIDTH, SCREEN_HEIGHT]
    · norm_num [show exSimMove.boidAt 1 = exBoidStay from rfl, exBoidStay,
        SCREEN_WIDTH, SCREEN_HEIGHT]
  have hothers : ∀ j, j < exSimMove.boids.length → j ≠ 0 →
      cellOfPos (exSimMove.boidAt j).boid.pos =
        ((exSimMove.boidAt j).row, (exSimMove.boidAt j).col) := by
    intro j hj hne
    have hj2 : j < 2 := hj
    interval_cases j
    · exact absurd rfl hne
    · exact cellOf_ten
  have h6 := claim_C6_reindex exSimMove exSimMove_consistent hpos
  have hscen := h6.2.2 0 (by decide) hothers rfl cellOf_eighty
  exact ⟨exSimMove_consistent, by decide, cellOf_eighty, hscen.1, hscen.2.1⟩

/-- Witness for claim C8 at the corner cell of the program's own grid size
(`19 × 14`): the cell `(0, 1)` is visited and exactly 4 cells are visited. -/
theorem claim_C8_neighborhood_witness :
    2 ≤ 19 ∧ 2 ≤ 14 ∧ (0, 1) ∈ run_for_neighbor_cells 0 0 19 14 ∧
      (run_for_neighbor_cells 0 0 19 14).length = 4 :=
  ⟨by decide, by decide,
    (claim_C8_neighborhood.1 0 0 19 14 0 1).mpr (by decide),
    claim_C8_neighborhood.2 19 14 (by decide) (by decide)⟩
